import Mathlib

/-!
# opusvis: the Opus pass-through inspector element (`src/gstopusvis.c`)

A shallow embedding of the instance code of the `opusvis` GStreamer element:
`handle_opus_frame`, `gst_opusvis_chain` and `gst_opusvis_init`.

Conventions of the embedding.

* C `int` / `opus_int32` values are `Int`; the only narrowing conversion in the
  code (`gsize info.size` passed as the `opus_int32 len` argument of
  `opus_decode`) is made explicit by `to_opus_int32`.
* A pointer to packet bytes (`info.data`) is a view of memory: a function from
  the offset to the byte stored there.  The length travels separately
  (`info.size`), exactly as in C, so a read at an offset `≥ size` is visible
  as such.
* `opusvis->decoder` is a nullable pointer: `Option OpusDecoder`.  Dereferencing
  `NULL` makes the embedded function return `none`.
* The functions of libopus and GStreamer that the element calls
  (`opus_packet_get_bandwidth`, `opus_decode`, `opus_decoder_create`,
  `gst_pad_push`) are not part of this repository; they are the fields of
  `Lib`, over which every theorem quantifies.
* Console output (`g_print`), the library calls that matter and the pad push
  are recorded, in program order, as a list of `Effect`s.
* `float plToHz = 48000.0f / prevPitchLag` is computed in IEEE 754 single
  precision (`binary32`: 24-bit significand, round to nearest, ties to even),
  as C does on a `float` and an `int` operand; the printed value is recorded
  as the rational number that `float` stands for.
-/

namespace OpusVis

/-! ## Constants of `opus_defines.h` -/

/-- Constant OPUS_OK of opus_defines.h. -/
def OPUS_OK : Int := 0
/-- Constant OPUS_INVALID_PACKET of opus_defines.h. -/
def OPUS_INVALID_PACKET : Int := -4
/-- Constant OPUS_ALLOC_FAIL of opus_defines.h. -/
def OPUS_ALLOC_FAIL : Int := -7
/-- Constant OPUS_BANDWIDTH_NARROWBAND of opus_defines.h (4 kHz passband). -/
def OPUS_BANDWIDTH_NARROWBAND : Int := 1101
/-- Constant OPUS_BANDWIDTH_MEDIUMBAND of opus_defines.h (6 kHz passband). -/
def OPUS_BANDWIDTH_MEDIUMBAND : Int := 1102
/-- Constant OPUS_BANDWIDTH_WIDEBAND of opus_defines.h (8 kHz passband). -/
def OPUS_BANDWIDTH_WIDEBAND : Int := 1103
/-- Constant OPUS_BANDWIDTH_SUPERWIDEBAND of opus_defines.h (12 kHz passband). -/
def OPUS_BANDWIDTH_SUPERWIDEBAND : Int := 1104
/-- Constant OPUS_BANDWIDTH_FULLBAND of opus_defines.h (20 kHz passband). -/
def OPUS_BANDWIDTH_FULLBAND : Int := 1105

/-! ## Data model -/

/-- The `silk_DecControlStruct` embedded in the decoder (silk/control.h).  The
element reads `prevPitchLag` only. -/
structure silk_DecControlStruct where
  nChannelsAPI : Int
  nChannelsInternal : Int
  API_sampleRate : Int
  internalSampleRate : Int
  payloadSize_ms : Int
  prevPitchLag : Int
  deriving DecidableEq, Repr

/-- The `struct OpusDecoder` of gstopusvis.c, lines 45-69, field by field.
`softclip_mem` holds the bit patterns of its two `opus_val16` values, and
`sub_decoders` is the memory of the SILK and CELT decoders that libopus places
after the struct (at `silk_dec_offset` and `celt_dec_offset`). -/
structure OpusDecoder where
  celt_dec_offset : Int
  silk_dec_offset : Int
  channels : Int
  Fs : Int
  DecControl : silk_DecControlStruct
  decode_gain : Int
  arch : Int
  stream_channels : Int
  bandwidth : Int
  mode : Int
  prev_mode : Int
  frame_size : Int
  prev_redundancy : Int
  last_packet_duration : Int
  softclip_mem : Nat × Nat
  rangeFinal : Nat
  sub_decoders : List Nat
  deriving DecidableEq, Repr

/-- A `GstBuffer` as the element sees it: the memory found at its data pointer
(offset to byte) and its size in bytes.  The bytes of the packet are those at
offsets `< size`. -/
structure GstBuffer where
  mem : Nat → Nat
  size : Nat

/-- The `GstMapInfo` filled in by `gst_buffer_map`. -/
structure GstMapInfo where
  data : Nat → Nat
  size : Nat

/-- The functions the element installs on its pads. -/
inductive PadFunction where
  | gst_opusvis_chain
  | gst_opusvis_sink_event
  | gst_opusvis_src_query
  deriving DecidableEq, Repr

/-- A `GstPad`, reduced to what `gst_opusvis_init` sets on it. -/
structure GstPad where
  name : String
  is_src : Bool
  proxy_caps : Bool
  chainfunc : Option PadFunction
  eventfunc : Option PadFunction
  queryfunc : Option PadFunction
  deriving DecidableEq, Repr

/-- The instance struct `GstOpusvis` (declared in gstopusvis.h): the three
members the instance code uses, and the names of the pads added to the
element. -/
structure GstOpusvis where
  decoder : Option OpusDecoder
  sinkpad : Option GstPad
  srcpad : Option GstPad
  pads : List String
  deriving DecidableEq, Repr

/-- What the element does to the outside, in program order. -/
inductive Effect where
  /-- The call `opus_decoder_create (Fs, channels, &err)`. -/
  | create (Fs : Int) (channels : Int)
  /-- The output of `g_print ("Couldn't create decoder, error code %i", err)`. -/
  | print_create_error (err : Int)
  /-- The call `opus_decode (st, data, len, pcm, frame_size, decode_fec)`, with the
  number of samples the `pcm` array holds. -/
  | decode (len : Int) (pcm_capacity : Nat) (frame_size : Int) (decode_fec : Int)
  /-- The output of `g_print ("pitch %i %f\n", prevPitchLag, plToHz)`: the lag and
  the value of the `float` passed for `%f`. -/
  | print_pitch (prevPitchLag : Int) (plToHz : ℚ)
  /-- The call `gst_pad_push (pad, buf)`. -/
  | push (pad : Option GstPad) (buf : GstBuffer)

/-- Whether the effect is a call of `opus_decode`. -/
def Effect.isDecode : Effect → Bool
  | .decode _ _ _ _ => true
  | _ => false

/-- Whether the effect is a printed pitch line. -/
def Effect.isPitch : Effect → Bool
  | .print_pitch _ _ => true
  | _ => false

/-- Whether the effect is a push to a pad. -/
def Effect.isPush : Effect → Bool
  | .push _ _ => true
  | _ => false

/-- The library functions the element calls.  `opus_decode` returns its `int`
result together with the decoder state it leaves behind; the decoded samples
are written to a local array that the element never reads. -/
structure Lib where
  opus_packet_get_bandwidth : (Nat → Nat) → Int
  opus_decode : OpusDecoder → (Nat → Nat) → Int → Int → Int → Int × OpusDecoder
  opus_decoder_create : Int → Int → Option OpusDecoder × Int
  gst_pad_push : Option GstPad → GstBuffer → Int

/-! ## The instance code -/

/-- Conversion of a `gsize` to `opus_int32` (two's complement wrap). -/
def to_opus_int32 (n : Nat) : Int :=
  (((n + 2 ^ 31) % 2 ^ 32 : Nat) : Int) - 2 ^ 31

/-- The call `gst_buffer_map (buf, &info, GST_MAP_READ)`. -/
def gst_buffer_map (buf : GstBuffer) : GstMapInfo :=
  { data := buf.mem, size := buf.size }

/-- The constant `const int bLen = 48000/50;` (gstopusvis.c, line 174). -/
def bLen : Nat := 48000 / 50

/-- The number of samples of `opus_int16 decode_buffer[bLen];` (line 175). -/
def decode_buffer_len : Nat := bLen

/-- The `switch` of handle_opus_frame (lines 179-204): `Fs` starts at 0 and a
case assigns it; a value matching no case leaves it at 0. -/
def Fs_switch (bandwidth : Int) : Int :=
  if bandwidth = OPUS_BANDWIDTH_NARROWBAND then 8000
  else if bandwidth = OPUS_BANDWIDTH_MEDIUMBAND then 12000
  else if bandwidth = OPUS_BANDWIDTH_WIDEBAND then 16000
  else if bandwidth = OPUS_BANDWIDTH_SUPERWIDEBAND then 24000
  else if bandwidth = OPUS_BANDWIDTH_FULLBAND then 48000
  else if bandwidth = OPUS_INVALID_PACKET then 0
  else 0

/-- The value of `Fs` that handle_opus_frame holds at line 206 for a buffer. -/
def frame_Fs (lib : Lib) (buf : GstBuffer) : Int :=
  Fs_switch (lib.opus_packet_get_bandwidth (gst_buffer_map buf).data)

/-! ### Single-precision arithmetic of line 228 -/

/-- A finite IEEE 754 single-precision number (C `float`), with the value
`(-1)^neg * mant * 2^exp`.  The functions below produce `mant < 2^24`, and
`2^23 ≤ mant` unless the value is 0.  The exponent is not bounded here: the
values the element computes stay inside the normal range of the format
(`plToHz_normal_range`), so neither overflow nor subnormals occur. -/
structure binary32 where
  neg : Bool
  mant : Nat
  exp : Int
  deriving DecidableEq, Repr

/-- The rational number a `binary32` stands for. -/
def binary32.toRat (x : binary32) : ℚ :=
  (if x.neg then -1 else 1) * ((x.mant : ℚ) * (2 : ℚ) ^ x.exp)

/-- The position of the highest set bit of `n`, by halving at most `fuel` times. -/
def log2_fuel : Nat → Nat → Nat
  | 0, _ => 0
  | fuel + 1, n => if 2 ≤ n then log2_fuel fuel (n / 2) + 1 else 0

/-- The position of the highest set bit of `n` (0 for `n = 0`). -/
def ilog2 (n : Nat) : Nat := log2_fuel n n

/-- The fraction `n / d` rounded to the nearest integer, ties to even: the
rounding mode of C floating-point arithmetic. -/
def round_half_even (n d : Nat) : Nat :=
  if 2 * (n % d) < d then n / d
  else if 2 * (n % d) = d then (if n / d % 2 = 0 then n / d else n / d + 1)
  else n / d + 1

/-- The fraction `(n / d) * 2^s`, as numerator and denominator. -/
def scale2 (n d : Nat) (s : Int) : Nat × Nat :=
  if 0 ≤ s then (n * 2 ^ s.toNat, d) else (n, d * 2 ^ (-s).toNat)

/-- The exponent `e` with `2^e ≤ n / d < 2^(e+1)`, for positive `n` and `d`. -/
def ratio_exponent (n d : Nat) : Int :=
  if (scale2 n d (-((ilog2 n : Int) - (ilog2 d : Int)))).2
      ≤ (scale2 n d (-((ilog2 n : Int) - (ilog2 d : Int)))).1
  then (ilog2 n : Int) - (ilog2 d : Int)
  else (ilog2 n : Int) - (ilog2 d : Int) - 1

/-- The positive fraction `n / d`, with the sign `neg`, rounded to single
precision: 24 significant bits, round to nearest, ties to even. -/
def round_binary32 (neg : Bool) (n d : Nat) : binary32 :=
  if n = 0 then { neg := neg, mant := 0, exp := 0 }
  else if round_half_even (scale2 n d (23 - ratio_exponent n d)).1
      (scale2 n d (23 - ratio_exponent n d)).2 = 2 ^ 24
  then { neg := neg, mant := 2 ^ 23, exp := ratio_exponent n d - 22 }
  else { neg := neg,
         mant := round_half_even (scale2 n d (23 - ratio_exponent n d)).1
           (scale2 n d (23 - ratio_exponent n d)).2,
         exp := ratio_exponent n d - 23 }

/-- The conversion `(float) n` of a C `int`. -/
def int_to_float (n : Int) : binary32 :=
  round_binary32 (decide (n < 0)) n.natAbs 1

/-- The single-precision division `a / b` of two nonzero numbers. -/
def float_div (a b : binary32) : binary32 :=
  round_binary32 (xor a.neg b.neg)
    (scale2 a.mant b.mant (a.exp - b.exp)).1 (scale2 a.mant b.mant (a.exp - b.exp)).2

/-- The value of `float plToHz = 48000.0f / prevPitchLag;` (line 228): the
`int` lag is converted to `float` and the division is done in single
precision (C evaluating `float` expressions in their own type, the case
FLT_EVAL_METHOD 0).  The line is reached with a nonzero lag only. -/
def plToHz (prevPitchLag : Int) : binary32 :=
  float_div (round_binary32 false 48000 1) (int_to_float prevPitchLag)

/-! ### The functions of the element -/

/-- The lines 227-230 of handle_opus_frame: the pitch line, printed when the
decoder's `DecControl.prevPitchLag` is not 0. -/
def pitch_print (st : OpusDecoder) : List Effect :=
  if st.DecControl.prevPitchLag ≠ 0 then
    [Effect.print_pitch st.DecControl.prevPitchLag
      (plToHz st.DecControl.prevPitchLag).toRat]
  else []

/-- The function `handle_opus_frame (opusvis, buf)` (lines 173-269).  The result is the
element after the call and the effects of the call; `none` is the dereference
of a `NULL` decoder. -/
def handle_opus_frame (lib : Lib) (opusvis : GstOpusvis) (buf : GstBuffer) :
    Option (GstOpusvis × List Effect) :=
  let info := gst_buffer_map buf
  let Fs := Fs_switch (lib.opus_packet_get_bandwidth info.data)
  if Fs = 0 then some (opusvis, [])
  else
    match opusvis.decoder with
    | none => none
    | some st =>
      let st1 := (lib.opus_decode st info.data (to_opus_int32 info.size) (bLen : Int) 0).2
      some ({ opusvis with decoder := some st1 },
        Effect.decode (to_opus_int32 info.size) decode_buffer_len (bLen : Int) 0
          :: pitch_print st1)

/-- The decoder state that the `opus_decode` call of handle_opus_frame (line
225) leaves behind, for the decoder state `st` before the call. -/
def decoder_after (lib : Lib) (st : OpusDecoder) (buf : GstBuffer) : OpusDecoder :=
  (lib.opus_decode st (gst_buffer_map buf).data
    (to_opus_int32 (gst_buffer_map buf).size) (bLen : Int) 0).2

/-- The `int ret` that the `opus_decode` call of handle_opus_frame (line 225)
returns, for the decoder state `st` before the call. -/
def decode_ret (lib : Lib) (st : OpusDecoder) (buf : GstBuffer) : Int :=
  (lib.opus_decode st (gst_buffer_map buf).data
    (to_opus_int32 (gst_buffer_map buf).size) (bLen : Int) 0).1

/-- The function `gst_opusvis_chain (pad, parent, buf)` (lines 271-281): the flow return,
the element afterwards and the effects. -/
def gst_opusvis_chain (lib : Lib) (opusvis : GstOpusvis) (buf : GstBuffer) :
    Option (Int × GstOpusvis × List Effect) :=
  match handle_opus_frame lib opusvis buf with
  | none => none
  | some (o, es) =>
    some (lib.gst_pad_push o.srcpad buf, o, es ++ [Effect.push o.srcpad buf])

/-- The call `gst_pad_new_from_static_template` for the two templates of the element. -/
def gst_pad_new_from_static_template (name : String) (is_src : Bool) : GstPad :=
  { name := name, is_src := is_src, proxy_caps := false,
    chainfunc := none, eventfunc := none, queryfunc := none }

/-- The function `gst_opusvis_init (opusvis)` (lines 296-321): the element afterwards and
the effects. -/
def gst_opusvis_init (lib : Lib) (opusvis : GstOpusvis) : GstOpusvis × List Effect :=
  let r := lib.opus_decoder_create 48000 1
  let err := r.2
  let msg := if err ≠ OPUS_OK then [Effect.print_create_error err] else []
  let sinkpad := { gst_pad_new_from_static_template "sink" false with proxy_caps := true }
  let srcpad := { gst_pad_new_from_static_template "src" true with proxy_caps := true }
  ({ decoder := r.1,
     sinkpad := some { sinkpad with
       chainfunc := some PadFunction.gst_opusvis_chain,
       eventfunc := some PadFunction.gst_opusvis_sink_event },
     srcpad := some { srcpad with queryfunc := some PadFunction.gst_opusvis_src_query },
     pads := opusvis.pads ++ ["sink", "src"] },
   Effect.create 48000 1 :: msg)

/-- Modelled from the spec: `opus_packet_get_bandwidth` is a function of
libopus, which the element links against and whose code is not among the
sources of this repository.  The spec fixes it as the standard Opus TOC byte
layout, in which the top 5 bits of the first byte select one of 32
configurations; this is the computation libopus performs on `data[0]`. -/
def opus_packet_get_bandwidth (data : Nat → Nat) : Int :=
  let toc := data 0 % 256
  if toc &&& 0x80 ≠ 0 then
    let bandwidth := OPUS_BANDWIDTH_MEDIUMBAND + (((toc >>> 5) &&& 0x3 : Nat) : Int)
    if bandwidth = OPUS_BANDWIDTH_MEDIUMBAND then OPUS_BANDWIDTH_NARROWBAND else bandwidth
  else if toc &&& 0x60 = 0x60 then
    if toc &&& 0x10 ≠ 0 then OPUS_BANDWIDTH_FULLBAND else OPUS_BANDWIDTH_SUPERWIDEBAND
  else
    OPUS_BANDWIDTH_NARROWBAND + (((toc >>> 5) &&& 0x3 : Nat) : Int)

/-- The configuration index of a TOC byte: its top 5 bits. -/
def toc_config (toc : Nat) : Nat := toc % 256 / 8

/-- The bandwidth column of the 32-entry configuration table of the Opus
packet format (RFC 6716, table 2), by configuration index. -/
def config_bandwidth (config : Nat) : Int :=
  if config ≤ 3 then OPUS_BANDWIDTH_NARROWBAND
  else if config ≤ 7 then OPUS_BANDWIDTH_MEDIUMBAND
  else if config ≤ 11 then OPUS_BANDWIDTH_WIDEBAND
  else if config ≤ 13 then OPUS_BANDWIDTH_SUPERWIDEBAND
  else if config ≤ 15 then OPUS_BANDWIDTH_FULLBAND
  else if config ≤ 19 then OPUS_BANDWIDTH_NARROWBAND
  else if config ≤ 23 then OPUS_BANDWIDTH_WIDEBAND
  else if config ≤ 27 then OPUS_BANDWIDTH_SUPERWIDEBAND
  else OPUS_BANDWIDTH_FULLBAND

/-- A `Lib` whose bandwidth classifier is the one of libopus. -/
def with_libopus (lib : Lib) : Lib :=
  { lib with opus_packet_get_bandwidth := opus_packet_get_bandwidth }

/-! ## Concrete inputs used to evaluate the code -/

/-- A decoder state with the given previous pitch lag, as left by a 48 kHz mono
`opus_decoder_create`; every other adaptive field is 0. -/
def decoder_with_lag (lag : Int) : OpusDecoder :=
  { celt_dec_offset := 0, silk_dec_offset := 0, channels := 1, Fs := 48000,
    DecControl :=
      { nChannelsAPI := 1, nChannelsInternal := 1, API_sampleRate := 48000,
        internalSampleRate := 0, payloadSize_ms := 0, prevPitchLag := lag },
    decode_gain := 0, arch := 0, stream_channels := 0, bandwidth := 0, mode := 0,
    prev_mode := 0, frame_size := 0, prev_redundancy := 0, last_packet_duration := 0,
    softclip_mem := (0, 0), rangeFinal := 0, sub_decoders := [] }

/-- An element as GObject hands it to `gst_opusvis_init`: zero-filled. -/
def blank_opusvis : GstOpusvis :=
  { decoder := none, sinkpad := none, srcpad := none, pads := [] }

/-- A library whose classifier answers `bw` for every packet, whose decode
call returns `ret` and sets the previous pitch lag to `lag`, and whose decoder
creation succeeds. -/
def stub_lib (bw ret lag : Int) : Lib :=
  { opus_packet_get_bandwidth := fun _ => bw,
    opus_decode := fun st _ _ _ _ =>
      (ret, { st with DecControl := { st.DecControl with prevPitchLag := lag } }),
    opus_decoder_create := fun _ _ => (some (decoder_with_lag 0), OPUS_OK),
    gst_pad_push := fun _ _ => 0 }

/-- A library with the classifier of libopus, a decode call that fails with
`ret` and leaves the decoder as it was, and a decoder creation that fails
with `OPUS_ALLOC_FAIL`. -/
def failing_lib (ret : Int) : Lib :=
  { opus_packet_get_bandwidth := opus_packet_get_bandwidth,
    opus_decode := fun st _ _ _ _ => (ret, st),
    opus_decoder_create := fun _ _ => (none, OPUS_ALLOC_FAIL),
    gst_pad_push := fun _ _ => 0 }

/-- A buffer of `size` bytes in memory where every byte is `toc`. -/
def buffer_of (toc size : Nat) : GstBuffer :=
  { mem := fun _ => toc, size := size }

/-- An element that holds a decoder with the given previous pitch lag. -/
def opusvis_with_lag (lag : Int) : GstOpusvis :=
  { blank_opusvis with decoder := some (decoder_with_lag lag) }

/-! ## General facts about the embedded code -/

theorem Fs_switch_cases (bw : Int) :
    Fs_switch bw = 8000 ∨ Fs_switch bw = 12000 ∨ Fs_switch bw = 16000 ∨
    Fs_switch bw = 24000 ∨ Fs_switch bw = 48000 ∨ Fs_switch bw = 0 := by
  unfold Fs_switch
  split_ifs <;> simp

theorem Fs_switch_eq_zero_iff (bw : Int) :
    Fs_switch bw = 0 ↔
      (bw ≠ OPUS_BANDWIDTH_NARROWBAND ∧ bw ≠ OPUS_BANDWIDTH_MEDIUMBAND ∧
       bw ≠ OPUS_BANDWIDTH_WIDEBAND ∧ bw ≠ OPUS_BANDWIDTH_SUPERWIDEBAND ∧
       bw ≠ OPUS_BANDWIDTH_FULLBAND) := by
  unfold Fs_switch
  split_ifs <;> simp_all

theorem handle_opus_frame_skip (lib : Lib) (opusvis : GstOpusvis) (buf : GstBuffer)
    (h : frame_Fs lib buf = 0) :
    handle_opus_frame lib opusvis buf = some (opusvis, []) := by
  unfold frame_Fs at h
  simp [handle_opus_frame, h]

theorem handle_opus_frame_decode (lib : Lib) (opusvis : GstOpusvis) (st : OpusDecoder)
    (buf : GstBuffer) (h : frame_Fs lib buf ≠ 0) (hd : opusvis.decoder = some st) :
    handle_opus_frame lib opusvis buf =
      some ({ opusvis with decoder := some (decoder_after lib st buf) },
        Effect.decode (to_opus_int32 buf.size) decode_buffer_len (bLen : Int) 0 ::
          pitch_print (decoder_after lib st buf)) := by
  unfold frame_Fs at h
  simp only [gst_buffer_map] at h
  simp [handle_opus_frame, h, hd, gst_buffer_map, decoder_after]

theorem handle_opus_frame_null (lib : Lib) (opusvis : GstOpusvis) (buf : GstBuffer)
    (h : frame_Fs lib buf ≠ 0) (hd : opusvis.decoder = none) :
    handle_opus_frame lib opusvis buf = none := by
  unfold frame_Fs at h
  simp [handle_opus_frame, h, hd]

theorem pitch_print_mem (st : OpusDecoder) (e : Effect) :
    e ∈ pitch_print st ↔
      (st.DecControl.prevPitchLag ≠ 0 ∧
        e = Effect.print_pitch st.DecControl.prevPitchLag
              (plToHz st.DecControl.prevPitchLag).toRat) := by
  unfold pitch_print
  split_ifs with h <;> simp [h]

theorem opus_packet_get_bandwidth_first_byte (data : Nat → Nat) :
    opus_packet_get_bandwidth data = opus_packet_get_bandwidth (fun _ => data 0 % 256) := by
  simp [opus_packet_get_bandwidth]

set_option maxRecDepth 100000 in
theorem opus_packet_get_bandwidth_fin :
    ∀ t : Fin 256,
      opus_packet_get_bandwidth (fun _ => t.val) = config_bandwidth (toc_config t.val) := by
  decide

theorem opus_packet_get_bandwidth_table (data : Nat → Nat) :
    opus_packet_get_bandwidth data = config_bandwidth (toc_config (data 0)) := by
  rw [opus_packet_get_bandwidth_first_byte]
  have h := opus_packet_get_bandwidth_fin ⟨data 0 % 256, Nat.mod_lt _ (by norm_num)⟩
  simpa [toc_config] using h

theorem frame_Fs_libopus (lib : Lib) (buf : GstBuffer) :
    frame_Fs (with_libopus lib) buf = Fs_switch (config_bandwidth (toc_config (buf.mem 0))) := by
  simp [frame_Fs, with_libopus, gst_buffer_map, opus_packet_get_bandwidth_table]

theorem frame_Fs_size_irrelevant (lib : Lib) (buf : GstBuffer) (n : Nat) :
    frame_Fs lib { buf with size := n } = frame_Fs lib buf := by
  simp [frame_Fs, gst_buffer_map]

theorem frame_Fs_libopus_ne_zero (lib : Lib) (buf : GstBuffer) :
    frame_Fs (with_libopus lib) buf ≠ 0 := by
  rw [frame_Fs_libopus]
  unfold config_bandwidth
  split_ifs <;> decide

/-! ## Single-precision rounding: value and error -/

theorem log2_fuel_eq (fuel : Nat) : ∀ n, n ≤ fuel → log2_fuel fuel n = Nat.log2 n := by
  induction fuel with
  | zero =>
    intro n hn
    have : n = 0 := by omega
    subst this
    rw [Nat.log2]; simp [log2_fuel]
  | succ k ih =>
    intro n hn
    rw [Nat.log2]
    simp only [log2_fuel]
    by_cases h : 2 ≤ n
    · have : n / 2 ≤ k := by omega
      simp [h, ih _ this]
    · simp [h]

theorem ilog2_eq (n : Nat) : ilog2 n = Nat.log2 n := log2_fuel_eq n n le_rfl

theorem ilog2_le (n : Nat) (h : n ≠ 0) : 2 ^ ilog2 n ≤ n := by
  rw [ilog2_eq]; exact Nat.log2_self_le h

theorem lt_ilog2 (n : Nat) : n < 2 ^ (ilog2 n + 1) := by
  rw [ilog2_eq]; exact Nat.lt_log2_self

theorem scale2_snd_pos (n d : Nat) (s : Int) (hd : 0 < d) : 0 < (scale2 n d s).2 := by
  unfold scale2
  split_ifs
  · exact hd
  · exact Nat.mul_pos hd (Nat.pos_pow_of_pos _ (by norm_num))

theorem scale2_val (n d : Nat) (s : Int) (hd : 0 < d) :
    ((scale2 n d s).1 : ℚ) / ((scale2 n d s).2 : ℚ) = (n : ℚ) / (d : ℚ) * (2 : ℚ) ^ s := by
  have hd0 : (d : ℚ) ≠ 0 := by exact_mod_cast hd.ne'
  unfold scale2
  split_ifs with h
  · obtain ⟨k, rfl⟩ := Int.eq_ofNat_of_zero_le h
    simp only [Int.toNat_ofNat, Nat.cast_mul, Nat.cast_pow, Nat.cast_ofNat, zpow_natCast]
    field_simp
  · have hs : s = -(((-s).toNat : Nat) : Int) := by
      rw [Int.toNat_of_nonneg (by omega)]; ring
    generalize (-s).toNat = k at hs
    subst hs
    simp only [Nat.cast_mul, Nat.cast_pow, Nat.cast_ofNat, zpow_neg, zpow_natCast]
    field_simp

theorem round_half_even_err (n d : Nat) (hd : 0 < d) :
    |(round_half_even n d : ℚ) - (n : ℚ) / (d : ℚ)| ≤ 1 / 2 := by
  have hdq : (0 : ℚ) < d := by exact_mod_cast hd
  have hdiv : (n : ℚ) = (d : ℚ) * ((n / d : Nat) : ℚ) + ((n % d : Nat) : ℚ) := by
    exact_mod_cast (Nat.div_add_mod n d).symm
  have hx : (n : ℚ) / (d : ℚ) = ((n / d : Nat) : ℚ) + ((n % d : Nat) : ℚ) / (d : ℚ) := by
    field_simp
    linarith
  have hr : ((n % d : Nat) : ℚ) < d := by exact_mod_cast Nat.mod_lt n hd
  have hr0 : (0 : ℚ) ≤ ((n % d : Nat) : ℚ) := by positivity
  rw [hx, abs_le]
  unfold round_half_even
  split_ifs with h1 h2 h3
  · have h1q : (2 : ℚ) * ((n % d : Nat) : ℚ) < d := by exact_mod_cast h1
    have : ((n % d : Nat) : ℚ) / (d : ℚ) ≤ 1 / 2 := by
      rw [div_le_iff₀ hdq]; linarith
    have : 0 ≤ ((n % d : Nat) : ℚ) / (d : ℚ) := by positivity
    constructor <;> linarith
  · have h2q : (2 : ℚ) * ((n % d : Nat) : ℚ) = d := by exact_mod_cast h2
    have : ((n % d : Nat) : ℚ) / (d : ℚ) = 1 / 2 := by
      rw [div_eq_iff hdq.ne']; linarith
    constructor <;> linarith
  · have h2q : (2 : ℚ) * ((n % d : Nat) : ℚ) = d := by exact_mod_cast h2
    have : ((n % d : Nat) : ℚ) / (d : ℚ) = 1 / 2 := by
      rw [div_eq_iff hdq.ne']; linarith
    push_cast
    constructor <;> linarith
  · have h1q : (d : ℚ) < (2 : ℚ) * ((n % d : Nat) : ℚ) := by
      have : d < 2 * (n % d) := by omega
      exact_mod_cast this
    have : 1 / 2 ≤ ((n % d : Nat) : ℚ) / (d : ℚ) := by
      rw [le_div_iff₀ hdq]; linarith
    have : ((n % d : Nat) : ℚ) / (d : ℚ) ≤ 1 := by
      rw [div_le_iff₀ hdq]; linarith
    push_cast
    constructor <;> linarith

theorem ratio_exponent_spec (n d : Nat) (hn : 0 < n) (hd : 0 < d) :
    (2 : ℚ) ^ ratio_exponent n d ≤ (n : ℚ) / (d : ℚ) ∧
    (n : ℚ) / (d : ℚ) < (2 : ℚ) ^ (ratio_exponent n d + 1) := by
  have hnq : (0 : ℚ) < n := by exact_mod_cast hn
  have hdq : (0 : ℚ) < d := by exact_mod_cast hd
  unfold ratio_exponent
  have a1 : ((2 : ℚ) ^ (ilog2 n : Int)) ≤ n := by
    rw [zpow_natCast]; exact_mod_cast ilog2_le n hn.ne'
  have a2 : (n : ℚ) < (2 : ℚ) ^ ((ilog2 n : Int) + 1) := by
    have := lt_ilog2 n
    have h : (n : ℚ) < (2 : ℚ) ^ (ilog2 n + 1) := by exact_mod_cast this
    rwa [← zpow_natCast, Nat.cast_add, Nat.cast_one] at h
  have b1 : ((2 : ℚ) ^ (ilog2 d : Int)) ≤ d := by
    rw [zpow_natCast]; exact_mod_cast ilog2_le d hd.ne'
  have b2 : (d : ℚ) < (2 : ℚ) ^ ((ilog2 d : Int) + 1) := by
    have := lt_ilog2 d
    have h : (d : ℚ) < (2 : ℚ) ^ (ilog2 d + 1) := by exact_mod_cast this
    rwa [← zpow_natCast, Nat.cast_add, Nat.cast_one] at h
  generalize (ilog2 n : Int) = a at a1 a2 ⊢
  generalize (ilog2 d : Int) = b at b1 b2 ⊢
  have h2 : (0 : ℚ) < 2 := by norm_num
  have pa : (0 : ℚ) < (2 : ℚ) ^ a := zpow_pos h2 _
  have pb : (0 : ℚ) < (2 : ℚ) ^ b := zpow_pos h2 _
  -- upper and lower estimates of n / d
  have up : (n : ℚ) / (d : ℚ) < (2 : ℚ) ^ (a - b + 1) := by
    rw [div_lt_iff₀ hdq]
    have e : (2 : ℚ) ^ (a - b + 1) * (2 : ℚ) ^ b = (2 : ℚ) ^ (a + 1) := by
      rw [← zpow_add₀ (by norm_num : (2 : ℚ) ≠ 0)]; congr 1; ring
    calc (n : ℚ) < (2 : ℚ) ^ (a + 1) := a2
      _ = (2 : ℚ) ^ (a - b + 1) * (2 : ℚ) ^ b := e.symm
      _ ≤ (2 : ℚ) ^ (a - b + 1) * d :=
        mul_le_mul_of_nonneg_left b1 (zpow_pos h2 _).le
  have lo : (2 : ℚ) ^ (a - b - 1) < (n : ℚ) / (d : ℚ) := by
    rw [lt_div_iff₀ hdq]
    have e : (2 : ℚ) ^ (a - b - 1) * (2 : ℚ) ^ (b + 1) = (2 : ℚ) ^ a := by
      rw [← zpow_add₀ (by norm_num : (2 : ℚ) ≠ 0)]; congr 1; ring
    calc (2 : ℚ) ^ (a - b - 1) * d < (2 : ℚ) ^ (a - b - 1) * (2 : ℚ) ^ (b + 1) :=
        mul_lt_mul_of_pos_left b2 (zpow_pos h2 _)
      _ = (2 : ℚ) ^ a := e
      _ ≤ n := a1
  have key : (scale2 n d (-(a - b))).2 ≤ (scale2 n d (-(a - b))).1 ↔
      (2 : ℚ) ^ (a - b) ≤ (n : ℚ) / (d : ℚ) := by
    have hp := scale2_snd_pos n d (-(a - b)) hd
    have hpq : (0 : ℚ) < ((scale2 n d (-(a - b))).2 : ℚ) := by exact_mod_cast hp
    have hv := scale2_val n d (-(a - b)) hd
    have : ((scale2 n d (-(a - b))).2 ≤ (scale2 n d (-(a - b))).1) ↔
        (1 : ℚ) ≤ ((scale2 n d (-(a - b))).1 : ℚ) / ((scale2 n d (-(a - b))).2 : ℚ) := by
      rw [le_div_iff₀ hpq, one_mul]; exact_mod_cast Iff.rfl
    rw [this, hv, zpow_neg, ← div_eq_mul_inv, le_div_iff₀ (zpow_pos h2 _), one_mul]
  split_ifs with h
  · exact ⟨key.1 h, up⟩
  · have hlt : (n : ℚ) / (d : ℚ) < (2 : ℚ) ^ (a - b) := lt_of_not_le (fun hh => h (key.2 hh))
    refine ⟨lo.le, ?_⟩
    have : a - b - 1 + 1 = a - b := by ring
    rw [this]; exact hlt

theorem round_binary32_toRat (neg : Bool) (n d : Nat) (hn : n ≠ 0) :
    (round_binary32 neg n d).toRat =
      (if neg then -1 else 1) *
        ((round_half_even (scale2 n d (23 - ratio_exponent n d)).1
            (scale2 n d (23 - ratio_exponent n d)).2 : ℚ)
          * (2 : ℚ) ^ (ratio_exponent n d - 23)) := by
  unfold round_binary32
  rw [if_neg hn]
  by_cases h : round_half_even (scale2 n d (23 - ratio_exponent n d)).1
      (scale2 n d (23 - ratio_exponent n d)).2 = 2 ^ 24
  · rw [if_pos h]
    simp only [binary32.toRat, h]
    have : (2 : ℚ) ^ (ratio_exponent n d - 22)
        = 2 * (2 : ℚ) ^ (ratio_exponent n d - 23) := by
      rw [show ratio_exponent n d - 22 = 1 + (ratio_exponent n d - 23) by ring,
        zpow_add₀ (by norm_num : (2 : ℚ) ≠ 0), zpow_one]
    rw [this]
    congr 1
    push_cast
    ring
  · rw [if_neg h]
    simp only [binary32.toRat]

theorem round_binary32_err (neg : Bool) (n d : Nat) (hn : 0 < n) (hd : 0 < d) :
    |(round_binary32 neg n d).toRat - (if neg then -1 else 1) * ((n : ℚ) / (d : ℚ))|
      ≤ (n : ℚ) / (d : ℚ) * (2 : ℚ) ^ (-24 : Int) := by
  rw [round_binary32_toRat neg n d hn.ne']
  have hspec := (ratio_exponent_spec n d hn hd).1
  have hv := scale2_val n d (23 - ratio_exponent n d) hd
  have hr := round_half_even_err (scale2 n d (23 - ratio_exponent n d)).1
    (scale2 n d (23 - ratio_exponent n d)).2 (scale2_snd_pos n d _ hd)
  rw [hv] at hr
  generalize (round_half_even (scale2 n d (23 - ratio_exponent n d)).1
    (scale2 n d (23 - ratio_exponent n d)).2 : ℚ) = m at hr
  generalize ratio_exponent n d = e at hspec hr
  generalize (n : ℚ) / (d : ℚ) = q at hspec hr
  have h2 : (2 : ℚ) ≠ 0 := by norm_num
  have hp : (0 : ℚ) < (2 : ℚ) ^ (e - 23) := zpow_pos (by norm_num) _
  have e1 : (2 : ℚ) ^ (e - 23) * (2 : ℚ) ^ (23 - e) = 1 := by
    rw [← zpow_add₀ h2, show e - 23 + (23 - e) = 0 by ring, zpow_zero]
  have e2 : (2 : ℚ) ^ (e - 23) * (1 / 2) = (2 : ℚ) ^ e * (2 : ℚ) ^ (-24 : Int) := by
    rw [← zpow_add₀ h2, show e + (-24 : Int) = (e - 23) + (-1) by ring, zpow_add₀ h2]
    norm_num
  have hX : m * (2 : ℚ) ^ (e - 23) - q = (2 : ℚ) ^ (e - 23) * (m - q * (2 : ℚ) ^ (23 - e)) := by
    have : (2 : ℚ) ^ (e - 23) * (q * (2 : ℚ) ^ (23 - e)) = q := by
      rw [mul_comm q, ← mul_assoc, e1, one_mul]
    rw [mul_sub, this]; ring
  have hA : |m * (2 : ℚ) ^ (e - 23) - q| ≤ q * (2 : ℚ) ^ (-24 : Int) := by
    rw [hX, abs_mul, abs_of_pos hp]
    calc (2 : ℚ) ^ (e - 23) * |m - q * (2 : ℚ) ^ (23 - e)|
        ≤ (2 : ℚ) ^ (e - 23) * (1 / 2) := mul_le_mul_of_nonneg_left hr hp.le
      _ = (2 : ℚ) ^ e * (2 : ℚ) ^ (-24 : Int) := e2
      _ ≤ q * (2 : ℚ) ^ (-24 : Int) :=
        mul_le_mul_of_nonneg_right hspec (zpow_pos (by norm_num) _).le
  cases neg
  · simpa using hA
  · simp only [if_true]
    rw [show (-1 : ℚ) * (m * (2 : ℚ) ^ (e - 23)) - -1 * q = -(m * (2 : ℚ) ^ (e - 23) - q) by ring,
      abs_neg]
    exact hA

theorem float_div_err (a b : binary32) (ha : 0 < a.mant) (hb : 0 < b.mant) :
    |(float_div a b).toRat - a.toRat / b.toRat| ≤ |a.toRat / b.toRat| * (2 : ℚ) ^ (-24 : Int) := by
  have hs := scale2_snd_pos a.mant b.mant (a.exp - b.exp) hb
  have hv := scale2_val a.mant b.mant (a.exp - b.exp) hb
  have haq : (0 : ℚ) < a.mant := by exact_mod_cast ha
  have hbq : (0 : ℚ) < b.mant := by exact_mod_cast hb
  have hq : (0 : ℚ) < (a.mant : ℚ) / (b.mant : ℚ) * (2 : ℚ) ^ (a.exp - b.exp) :=
    mul_pos (div_pos haq hbq) (zpow_pos (by norm_num) _)
  have h1 : 0 < (scale2 a.mant b.mant (a.exp - b.exp)).1 := by
    have : (0 : ℚ) < ((scale2 a.mant b.mant (a.exp - b.exp)).1 : ℚ) := by
      have hsq : (0 : ℚ) < ((scale2 a.mant b.mant (a.exp - b.exp)).2 : ℚ) := by exact_mod_cast hs
      rw [← hv] at hq
      by_contra hcon
      have : ((scale2 a.mant b.mant (a.exp - b.exp)).1 : ℚ) ≤ 0 := not_lt.1 hcon
      have := div_nonpos_of_nonpos_of_nonneg this hsq.le
      linarith
    exact_mod_cast this
  have herr := round_binary32_err (xor a.neg b.neg) _ _ h1 hs
  rw [hv] at herr
  have hquot : a.toRat / b.toRat = (if xor a.neg b.neg then -1 else 1) *
      ((a.mant : ℚ) / (b.mant : ℚ) * (2 : ℚ) ^ (a.exp - b.exp)) := by
    have h2 : (2 : ℚ) ≠ 0 := by norm_num
    simp only [binary32.toRat]
    rw [zpow_sub₀ h2]
    have hpb : (2 : ℚ) ^ b.exp ≠ 0 := zpow_ne_zero _ h2
    cases a.neg <;> cases b.neg <;> simp <;> field_simp
  have habs : |a.toRat / b.toRat| =
      (a.mant : ℚ) / (b.mant : ℚ) * (2 : ℚ) ^ (a.exp - b.exp) := by
    rw [hquot, abs_mul, abs_of_pos hq]
    split_ifs <;> simp
  rw [habs, hquot]
  exact herr

theorem int_to_float_exact (n : Int) (h : n.natAbs < 2 ^ 24) :
    (int_to_float n).toRat = n := by
  unfold int_to_float
  by_cases h0 : n = 0
  · subst h0
    simp [round_binary32, binary32.toRat]
  have hk : 0 < n.natAbs := Int.natAbs_pos.2 h0
  rw [round_binary32_toRat _ _ _ hk.ne']
  have hspec := (ratio_exponent_spec n.natAbs 1 hk Nat.one_pos).1
  have he : ratio_exponent n.natAbs 1 ≤ 23 := by
    by_contra hcon
    have h24 : (24 : Int) ≤ ratio_exponent n.natAbs 1 := by omega
    have : (2 : ℚ) ^ (24 : Int) ≤ (2 : ℚ) ^ ratio_exponent n.natAbs 1 :=
      zpow_le_zpow_right₀ (by norm_num) h24
    have e24 : (2 : ℚ) ^ (24 : Int) = 16777216 := by norm_num
    have h16 : n.natAbs < 16777216 := by simpa using h
    have hlt : ((n.natAbs : Nat) : ℚ) < 16777216 := by exact_mod_cast h16
    simp only [Nat.cast_one, div_one] at hspec
    linarith
  have hsc : scale2 n.natAbs 1 (23 - ratio_exponent n.natAbs 1)
      = (n.natAbs * 2 ^ (23 - ratio_exponent n.natAbs 1).toNat, 1) := by
    unfold scale2
    rw [if_pos (by omega)]
  have hrhe : ∀ x : Nat, round_half_even x 1 = x := by
    intro x
    simp [round_half_even, Nat.mod_one]
  rw [hsc, hrhe]
  generalize ratio_exponent n.natAbs 1 = e at he
  have h2 : (2 : ℚ) ≠ 0 := by norm_num
  have hpow : (((2 : Nat) ^ (23 - e).toNat : Nat) : ℚ) = (2 : ℚ) ^ (23 - e) := by
    rw [Nat.cast_pow, ← zpow_natCast, Int.toNat_of_nonneg (by omega)]
    norm_num
  rw [Nat.cast_mul, hpow, mul_assoc, ← zpow_add₀ h2, show 23 - e + (e - 23) = 0 by ring,
    zpow_zero, mul_one]
  by_cases hneg : n < 0
  · have hn : ((n.natAbs : Nat) : Int) = -n := by omega
    have hq : ((n.natAbs : Nat) : ℚ) = -(n : ℚ) := by
      have := congrArg (Int.cast : Int → ℚ) hn
      rwa [Int.cast_natCast, Int.cast_neg] at this
    simp only [hneg, decide_True, if_true]
    rw [hq]; ring
  · have hn : ((n.natAbs : Nat) : Int) = n := by omega
    have hq : ((n.natAbs : Nat) : ℚ) = (n : ℚ) := by
      have := congrArg (Int.cast : Int → ℚ) hn
      rwa [Int.cast_natCast] at this
    simp only [hneg, decide_False, Bool.false_eq_true, if_false, one_mul]
    exact hq

theorem plToHz_err (lag : Int) (h0 : lag ≠ 0) (h : lag.natAbs < 2 ^ 24) :
    |(plToHz lag).toRat - (48000 : ℚ) / (lag : ℚ)|
      ≤ |(48000 : ℚ) / (lag : ℚ)| * (2 : ℚ) ^ (-24 : Int) := by
  have hb := int_to_float_exact lag h
  have ha : (round_binary32 false 48000 1) = { neg := false, mant := 12288000, exp := -8 } := by
    decide
  have ha2 : (round_binary32 false 48000 1).toRat = 48000 := by
    rw [ha]; norm_num [binary32.toRat]
  have hbm : 0 < (int_to_float lag).mant := by
    rcases Nat.eq_zero_or_pos (int_to_float lag).mant with hz | hz
    · exfalso
      have : (int_to_float lag).toRat = 0 := by simp [binary32.toRat, hz]
      rw [hb] at this
      exact h0 (by exact_mod_cast this)
    · exact hz
  have := float_div_err (round_binary32 false 48000 1) (int_to_float lag)
    (by rw [ha]; decide) hbm
  rw [ha2, hb] at this
  exact this

theorem int_to_float_err (n : Int) (h0 : n ≠ 0) :
    0 < (int_to_float n).mant ∧
    |(int_to_float n).toRat - (n : ℚ)| ≤ |(n : ℚ)| * (2 : ℚ) ^ (-24 : Int) := by
  have hk : 0 < n.natAbs := Int.natAbs_pos.2 h0
  have herr := round_binary32_err (decide (n < 0)) n.natAbs 1 hk Nat.one_pos
  simp only [Nat.cast_one, div_one] at herr
  have hsgn : (if decide (n < 0) = true then (-1 : ℚ) else 1) * ((n.natAbs : Nat) : ℚ) = (n : ℚ) := by
    by_cases hneg : n < 0
    · have hn : ((n.natAbs : Nat) : Int) = -n := by omega
      have hq : ((n.natAbs : Nat) : ℚ) = -(n : ℚ) := by
        have := congrArg (Int.cast : Int → ℚ) hn
        rwa [Int.cast_natCast, Int.cast_neg] at this
      simp only [hneg, decide_True, if_true]
      rw [hq]; ring
    · have hn : ((n.natAbs : Nat) : Int) = n := by omega
      have hq : ((n.natAbs : Nat) : ℚ) = (n : ℚ) := by
        have := congrArg (Int.cast : Int → ℚ) hn
        rwa [Int.cast_natCast] at this
      simp only [hneg, decide_False, Bool.false_eq_true, if_false, one_mul]
      exact hq
  have habs : ((n.natAbs : Nat) : ℚ) = |(n : ℚ)| := by
    rw [← hsgn, abs_mul, abs_of_nonneg (Nat.cast_nonneg _ : (0 : ℚ) ≤ (n.natAbs : ℚ))]
    split_ifs <;> simp
  have hbound : |(int_to_float n).toRat - (n : ℚ)| ≤ |(n : ℚ)| * (2 : ℚ) ^ (-24 : Int) := by
    unfold int_to_float
    rw [hsgn, habs] at herr
    exact herr
  refine ⟨?_, hbound⟩
  rcases Nat.eq_zero_or_pos (int_to_float n).mant with hz | hz
  · exfalso
    have hzero : (int_to_float n).toRat = 0 := by simp [binary32.toRat, hz]
    rw [hzero, zero_sub, abs_neg] at hbound
    have hpos : (0 : ℚ) < |(n : ℚ)| := abs_pos.2 (by exact_mod_cast h0)
    have : (2 : ℚ) ^ (-24 : Int) < 1 := by norm_num
    nlinarith
  · exact hz

theorem plToHz_err_any (lag : Int) (h0 : lag ≠ 0) :
    |(plToHz lag).toRat - (48000 : ℚ) / (lag : ℚ)|
      ≤ |(48000 : ℚ) / (lag : ℚ)| * (2 : ℚ) ^ (-22 : Int) := by
  obtain ⟨hbm, hb⟩ := int_to_float_err lag h0
  have ha : (round_binary32 false 48000 1) = { neg := false, mant := 12288000, exp := -8 } := by
    decide
  have ha2 : (round_binary32 false 48000 1).toRat = 48000 := by
    rw [ha]; norm_num [binary32.toRat]
  have hr := float_div_err (round_binary32 false 48000 1) (int_to_float lag)
    (by rw [ha]; decide) hbm
  rw [ha2] at hr
  change |(plToHz lag).toRat - 48000 / (int_to_float lag).toRat| ≤ _ at hr
  generalize (plToHz lag).toRat = r at hr ⊢
  generalize (int_to_float lag).toRat = b at hr hb
  have hL : (lag : ℚ) ≠ 0 := by exact_mod_cast h0
  generalize (lag : ℚ) = L at hb hL ⊢
  have e24 : (2 : ℚ) ^ (-24 : Int) = 1 / 16777216 := by norm_num
  have e22 : (2 : ℚ) ^ (-22 : Int) = 1 / 4194304 := by norm_num
  rw [e24] at hb hr
  rw [e22]
  have hA : 0 < |L| := abs_pos.2 hL
  have hB : |L| / 2 ≤ |b| := by
    have h1 : |L| - |b| ≤ |L - b| := abs_sub_abs_le_abs_sub L b
    rw [abs_sub_comm] at h1
    linarith
  have hBpos : 0 < |b| := by linarith
  have hb0 : b ≠ 0 := abs_pos.1 hBpos
  have hv : |(48000 : ℚ) / b| ≤ 2 * |(48000 : ℚ) / L| := by
    rw [abs_div, abs_div, div_le_iff₀ hBpos]
    have : 2 * (|(48000 : ℚ)| / |L|) * |b| = |(48000 : ℚ)| * (2 * |b| / |L|) := by
      field_simp
      ring
    rw [this]
    have h2 : 1 ≤ 2 * |b| / |L| := by
      rw [le_div_iff₀ hA]; linarith
    have h48 : (0 : ℚ) ≤ |(48000 : ℚ)| := abs_nonneg _
    nlinarith
  have hvu : |(48000 : ℚ) / b - 48000 / L| ≤ |(48000 : ℚ) / b| * (1 / 16777216) := by
    have : (48000 : ℚ) / b - 48000 / L = (48000 / b) * ((L - b) / L) := by
      field_simp
      ring
    rw [this, abs_mul]
    apply mul_le_mul_of_nonneg_left _ (abs_nonneg _)
    rw [abs_div, div_le_iff₀ hA, abs_sub_comm]
    linarith
  have htri : |r - 48000 / L| ≤ |r - 48000 / b| + |(48000 : ℚ) / b - 48000 / L| := by
    have := abs_add (r - 48000 / b) (48000 / b - 48000 / L)
    simpa using this
  have hu : 0 ≤ |(48000 : ℚ) / L| := abs_nonneg _
  linarith

theorem plToHz_normal_range (lag : Int) (h0 : lag ≠ 0) (h : lag.natAbs ≤ 2 ^ 31) :
    (2 : ℚ) ^ (-126 : Int) ≤ |(plToHz lag).toRat| ∧ |(plToHz lag).toRat| < (2 : ℚ) ^ (128 : Int) := by
  have herr := plToHz_err_any lag h0
  have hL0 : (lag : ℚ) ≠ 0 := by exact_mod_cast h0
  have hA : 0 < |(lag : ℚ)| := abs_pos.2 hL0
  have h1 : (1 : ℚ) ≤ |(lag : ℚ)| := by
    have : (1 : Int) ≤ |lag| := Int.one_le_abs h0
    exact_mod_cast this
  have h31 : |(lag : ℚ)| ≤ 2147483648 := by
    have h' : lag.natAbs ≤ 2147483648 := by simpa using h
    have : ((lag.natAbs : Nat) : Int) = |lag| := Int.natCast_natAbs lag
    have h2 : |lag| ≤ (2147483648 : Int) := by rw [← this]; exact_mod_cast h'
    exact_mod_cast h2
  have hu : |(48000 : ℚ) / (lag : ℚ)| = 48000 / |(lag : ℚ)| := by
    rw [abs_div]; norm_num
  rw [hu] at herr
  have hu1 : (48000 : ℚ) / |(lag : ℚ)| ≤ 48000 := by
    rw [div_le_iff₀ hA]; nlinarith
  have hu2 : (48000 : ℚ) / 2147483648 ≤ 48000 / |(lag : ℚ)| :=
    div_le_div_of_nonneg_left (by norm_num) hA h31
  have e22 : (2 : ℚ) ^ (-22 : Int) = 1 / 4194304 := by norm_num
  rw [e22] at herr
  have hlow : (2 : ℚ) ^ (-126 : Int) ≤ 1 / 100000 := by
    rw [zpow_neg, ← one_div]
    apply one_div_le_one_div_of_le (by norm_num)
    have : (2 : ℚ) ^ (126 : Int) = 2 ^ (126 : Nat) := by norm_cast
    rw [this]; norm_num
  have hhigh : (100000 : ℚ) ≤ (2 : ℚ) ^ (128 : Int) := by
    have : (2 : ℚ) ^ (128 : Int) = 2 ^ (128 : Nat) := by norm_cast
    rw [this]; norm_num
  have t1 : |(48000 : ℚ) / (lag : ℚ)| - |(plToHz lag).toRat|
      ≤ |(48000 : ℚ) / (lag : ℚ) - (plToHz lag).toRat| := abs_sub_abs_le_abs_sub _ _
  have t2 : |(plToHz lag).toRat| - |(48000 : ℚ) / (lag : ℚ)|
      ≤ |(plToHz lag).toRat - (48000 : ℚ) / (lag : ℚ)| := abs_sub_abs_le_abs_sub _ _
  rw [abs_sub_comm] at t1
  rw [hu] at t1 t2
  generalize (2 : ℚ) ^ (-126 : Int) = lo at hlow ⊢
  generalize (2 : ℚ) ^ (128 : Int) = hi at hhigh ⊢
  generalize |(plToHz lag).toRat - 48000 / (lag : ℚ)| = E at herr t1 t2
  generalize |(plToHz lag).toRat| = R at t1 t2 ⊢
  generalize (48000 : ℚ) / |(lag : ℚ)| = u at herr hu1 hu2 t1 t2
  norm_num at hu2
  constructor
  · linarith
  · linarith

theorem plToHz_100 : (plToHz 100).toRat = 480 := by
  have h : plToHz 100 = { neg := false, mant := 15728640, exp := -15 } := by decide
  rw [h]; norm_num [binary32.toRat]

theorem plToHz_7 : (plToHz 7).toRat = 14043429 / 2048 := by
  have h : plToHz 7 = { neg := false, mant := 14043429, exp := -11 } := by decide
  rw [h]; norm_num [binary32.toRat]

/-- On an element that holds a decoder, or for a packet that is skipped as
invalid, gst_opusvis_chain pushes the incoming buffer to the source pad exactly
once, as its last effect, and returns the result of that push. -/
theorem gst_opusvis_chain_pushes_once (lib : Lib) (opusvis : GstOpusvis) (buf : GstBuffer)
    (hd : opusvis.decoder ≠ none ∨ frame_Fs lib buf = 0) :
    ∃ o es, gst_opusvis_chain lib opusvis buf
        = some (lib.gst_pad_push opusvis.srcpad buf, o,
            es ++ [Effect.push opusvis.srcpad buf]) ∧
      handle_opus_frame lib opusvis buf = some (o, es) ∧
      o.srcpad = opusvis.srcpad ∧
      (es ++ [Effect.push opusvis.srcpad buf]).filter Effect.isPush
        = [Effect.push opusvis.srcpad buf] := by
  by_cases hFs : frame_Fs lib buf = 0
  · refine ⟨opusvis, [], ?_, handle_opus_frame_skip lib opusvis buf hFs, rfl, ?_⟩
    · simp [gst_opusvis_chain, handle_opus_frame_skip lib opusvis buf hFs]
    · simp [Effect.isPush]
  · have hne : opusvis.decoder ≠ none := hd.resolve_right hFs
    obtain ⟨st, hst⟩ := Option.ne_none_iff_exists'.1 hne
    have hh := handle_opus_frame_decode lib opusvis st buf hFs hst
    refine ⟨_, _, ?_, hh, rfl, ?_⟩
    · simp [gst_opusvis_chain, hh]
    · have hp : (pitch_print (decoder_after lib st buf)).filter Effect.isPush = [] := by
        unfold pitch_print
        split_ifs <;> simp [Effect.isPush]
      simp [List.filter_cons, Effect.isPush, hp]

/-! ## The claims -/

/-- C1: the bandwidth-to-sample-rate mapping of handle_opus_frame is the fixed
table.  The `Fs` the function holds for a buffer is the switch applied to the
classifier result, and the switch sends narrowband to 8000, mediumband to
12000, wideband to 16000, super-wideband to 24000, fullband to 48000 and the
invalid-packet result to 0. -/
theorem C1_bandwidth_to_sample_rate_table (lib : Lib) (buf : GstBuffer) :
    frame_Fs lib buf = Fs_switch (lib.opus_packet_get_bandwidth (gst_buffer_map buf).data) ∧
    Fs_switch OPUS_BANDWIDTH_NARROWBAND = 8000 ∧
    Fs_switch OPUS_BANDWIDTH_MEDIUMBAND = 12000 ∧
    Fs_switch OPUS_BANDWIDTH_WIDEBAND = 16000 ∧
    Fs_switch OPUS_BANDWIDTH_SUPERWIDEBAND = 24000 ∧
    Fs_switch OPUS_BANDWIDTH_FULLBAND = 48000 ∧
    Fs_switch OPUS_INVALID_PACKET = 0 := by
  refine ⟨rfl, ?_, ?_, ?_, ?_, ?_, ?_⟩ <;> decide

/-- C2: for a packet whose classification is invalid (implied sample rate 0),
handle_opus_frame returns with the element exactly as it was and with no
effect at all: no decode call, no pitch line, the decoder state untouched. -/
theorem C2_invalid_packet_skipped (lib : Lib) (opusvis : GstOpusvis) (buf : GstBuffer)
    (h : frame_Fs lib buf = 0) :
    handle_opus_frame lib opusvis buf = some (opusvis, []) ∧
    ∀ o es, handle_opus_frame lib opusvis buf = some (o, es) →
      o.decoder = opusvis.decoder ∧
      ∀ e ∈ es, e.isDecode = false ∧ e.isPitch = false := by
  have hs := handle_opus_frame_skip lib opusvis buf h
  refine ⟨hs, ?_⟩
  intro o es hoe
  rw [hs] at hoe
  simp only [Option.some.injEq, Prod.mk.injEq] at hoe
  obtain ⟨rfl, rfl⟩ := hoe
  simp

/-- Witness of C2: a classifier answering OPUS_INVALID_PACKET, an element whose
decoder holds previous pitch lag 7. -/
theorem C2_invalid_packet_skipped_witness :
    frame_Fs (stub_lib OPUS_INVALID_PACKET 0 0) (buffer_of 0 1) = 0 ∧
    (handle_opus_frame (stub_lib OPUS_INVALID_PACKET 0 0) (opusvis_with_lag 7) (buffer_of 0 1)
        = some (opusvis_with_lag 7, []) ∧
      ∀ o es, handle_opus_frame (stub_lib OPUS_INVALID_PACKET 0 0) (opusvis_with_lag 7)
          (buffer_of 0 1) = some (o, es) →
        o.decoder = (opusvis_with_lag 7).decoder ∧
        ∀ e ∈ es, e.isDecode = false ∧ e.isPitch = false) :=
  ⟨by decide, C2_invalid_packet_skipped _ _ _ (by decide)⟩

/-- C3, refuted as stated: a narrowband packet whose decode call leaves the
previous pitch lag 7.  The pitch line carries the single-precision quotient
14043429/2048 = 6857.14306640625, which is not 48000/7. -/
theorem C3_counterexample :
    (decoder_after (stub_lib OPUS_BANDWIDTH_NARROWBAND 960 7) (decoder_with_lag 0)
      (buffer_of 0 1)).DecControl.prevPitchLag = 7 ∧
    handle_opus_frame (stub_lib OPUS_BANDWIDTH_NARROWBAND 960 7) (opusvis_with_lag 0)
        (buffer_of 0 1)
      = some (opusvis_with_lag 7,
          [Effect.decode 1 960 960 0, Effect.print_pitch 7 (14043429 / 2048)]) ∧
    (14043429 / 2048 : ℚ) ≠ 48000 / 7 := by
  refine ⟨rfl, ?_, by norm_num⟩
  rw [handle_opus_frame_decode (stub_lib OPUS_BANDWIDTH_NARROWBAND 960 7) (opusvis_with_lag 0)
    (decoder_with_lag 0) (buffer_of 0 1) (by decide) rfl]
  have h1 : to_opus_int32 (buffer_of 0 1).size = 1 := by decide
  have h2 : decode_buffer_len = 960 := by decide
  have h3 : ((bLen : Nat) : Int) = 960 := by decide
  have h4 : decoder_after (stub_lib OPUS_BANDWIDTH_NARROWBAND 960 7) (decoder_with_lag 0)
      (buffer_of 0 1) = decoder_with_lag 7 := rfl
  have h5 : pitch_print (decoder_with_lag 7) = [Effect.print_pitch 7 (14043429 / 2048)] := by
    have : pitch_print (decoder_with_lag 7) = [Effect.print_pitch 7 (plToHz 7).toRat] := rfl
    rw [this, plToHz_7]
  rw [h1, h2, h3, h4, h5]
  rfl

/-- C3, amended: for a packet with a valid classification, processed by an
element that holds a decoder, the pitch line is printed if and only if the
previous pitch lag of the decoder state left by this packet's decode call is
not 0; the printed lag is that post-decode lag, and the printed value is the
single-precision quotient `48000.0f / lag` of line 228, 48000 being the rate
`gst_opusvis_init` creates the decoder with.  That value is within the
relative error 2^-22 of 48000/lag, and within 2^-24 when |lag| < 2^24. -/
theorem C3_pitch_from_post_decode_state (lib : Lib) (opusvis : GstOpusvis)
    (st : OpusDecoder) (buf : GstBuffer)
    (hd : opusvis.decoder = some st) (hFs : frame_Fs lib buf ≠ 0) :
    ∃ o es, handle_opus_frame lib opusvis buf = some (o, es) ∧
      o.decoder = some (decoder_after lib st buf) ∧
      ((∃ e ∈ es, e.isPitch = true) ↔
        (decoder_after lib st buf).DecControl.prevPitchLag ≠ 0) ∧
      ∀ lag hz, Effect.print_pitch lag hz ∈ es →
        lag = (decoder_after lib st buf).DecControl.prevPitchLag ∧
        ∃ rate channels,
          (gst_opusvis_init lib blank_opusvis).2.head? = some (Effect.create rate channels) ∧
          hz = (float_div (int_to_float rate) (int_to_float lag)).toRat ∧
          |hz - (rate : ℚ) / (lag : ℚ)| ≤ |(rate : ℚ) / (lag : ℚ)| * (2 : ℚ) ^ (-22 : Int) ∧
          (lag.natAbs < 2 ^ 24 →
            |hz - (rate : ℚ) / (lag : ℚ)| ≤ |(rate : ℚ) / (lag : ℚ)| * (2 : ℚ) ^ (-24 : Int)) := by
  refine ⟨_, _, handle_opus_frame_decode lib opusvis st buf hFs hd, rfl, ?_, ?_⟩
  · constructor
    · rintro ⟨e, he, hp⟩
      rcases List.mem_cons.1 he with rfl | he
      · simp [Effect.isPitch] at hp
      · exact ((pitch_print_mem _ _).1 he).1
    · intro hl
      refine ⟨_, List.mem_cons_of_mem _ ((pitch_print_mem _ _).2 ⟨hl, rfl⟩), rfl⟩
  · intro lag hz hm
    rcases List.mem_cons.1 hm with he | he
    · cases he
    · obtain ⟨hne, this⟩ := (pitch_print_mem _ _).1 he
      simp only [Effect.print_pitch.injEq] at this
      obtain ⟨rfl, rfl⟩ := this
      refine ⟨rfl, 48000, 1, rfl, rfl, ?_, ?_⟩
      · exact_mod_cast plToHz_err_any _ hne
      · intro hsmall
        exact_mod_cast plToHz_err _ hne hsmall

/-- Witness of C3 (amended): a narrowband packet whose decode leaves previous
pitch lag 100 in a decoder that held 0 before. -/
theorem C3_pitch_from_post_decode_state_witness :
    (opusvis_with_lag 0).decoder = some (decoder_with_lag 0) ∧
    frame_Fs (stub_lib OPUS_BANDWIDTH_NARROWBAND 960 100) (buffer_of 0 1) ≠ 0 ∧
    ∃ o es, handle_opus_frame (stub_lib OPUS_BANDWIDTH_NARROWBAND 960 100)
        (opusvis_with_lag 0) (buffer_of 0 1) = some (o, es) ∧
      o.decoder = some (decoder_after (stub_lib OPUS_BANDWIDTH_NARROWBAND 960 100)
        (decoder_with_lag 0) (buffer_of 0 1)) ∧
      ((∃ e ∈ es, e.isPitch = true) ↔
        (decoder_after (stub_lib OPUS_BANDWIDTH_NARROWBAND 960 100)
          (decoder_with_lag 0) (buffer_of 0 1)).DecControl.prevPitchLag ≠ 0) ∧
      ∀ lag hz, Effect.print_pitch lag hz ∈ es →
        lag = (decoder_after (stub_lib OPUS_BANDWIDTH_NARROWBAND 960 100)
          (decoder_with_lag 0) (buffer_of 0 1)).DecControl.prevPitchLag ∧
        ∃ rate channels,
          (gst_opusvis_init (stub_lib OPUS_BANDWIDTH_NARROWBAND 960 100)
            blank_opusvis).2.head? = some (Effect.create rate channels) ∧
          hz = (float_div (int_to_float rate) (int_to_float lag)).toRat ∧
          |hz - (rate : ℚ) / (lag : ℚ)| ≤ |(rate : ℚ) / (lag : ℚ)| * (2 : ℚ) ^ (-22 : Int) ∧
          (lag.natAbs < 2 ^ 24 →
            |hz - (rate : ℚ) / (lag : ℚ)| ≤ |(rate : ℚ) / (lag : ℚ)| * (2 : ℚ) ^ (-24 : Int)) :=
  ⟨rfl, by decide, C3_pitch_from_post_decode_state _ _ _ _ rfl (by decide)⟩

/-- C4, refuted as stated: the decode call returns the negative code -4 and
leaves the decoder with the previous pitch lag 100 it had from earlier
packets; handle_opus_frame still prints the pitch line (lag 100, 480 Hz, which
the single-precision division gives exactly) and reports nothing about the
failure. -/
theorem C4_counterexample :
    decode_ret (failing_lib (-4)) (decoder_with_lag 100) (buffer_of 0 1) < 0 ∧
    handle_opus_frame (failing_lib (-4)) (opusvis_with_lag 100) (buffer_of 0 1) =
      some (opusvis_with_lag 100,
        [Effect.decode 1 960 960 0, Effect.print_pitch 100 480]) := by
  refine ⟨by decide, ?_⟩
  rw [handle_opus_frame_decode (failing_lib (-4)) (opusvis_with_lag 100)
    (decoder_with_lag 100) (buffer_of 0 1) (by decide) rfl]
  simp only [Option.some.injEq, Prod.mk.injEq]
  refine ⟨rfl, ?_⟩
  have h1 : to_opus_int32 (buffer_of 0 1).size = 1 := by decide
  have h2 : decode_buffer_len = 960 := by decide
  have h3 : ((bLen : Nat) : Int) = 960 := by decide
  have h4 : decoder_after (failing_lib (-4)) (decoder_with_lag 100) (buffer_of 0 1)
      = decoder_with_lag 100 := rfl
  have h5 : pitch_print (decoder_with_lag 100) = [Effect.print_pitch 100 480] := by
    have : pitch_print (decoder_with_lag 100)
        = [Effect.print_pitch 100 (plToHz 100).toRat] := rfl
    rw [this, plToHz_100]
  rw [h1, h2, h3, h4, h5]

/-- C4, amended: for a packet with a valid classification whose decode call
fails (negative return code), handle_opus_frame ignores the return code.  It
leaves the decoder as the decode call left it, records the decode call
followed by the pitch line for the post-decode state (present exactly when
that state's previous pitch lag is not 0), and any library that classifies
alike and leaves the same post-decode states, whatever its decode call
returns, gives the same result. -/
theorem C4_decode_failure_ignored (lib : Lib) (opusvis : GstOpusvis)
    (st : OpusDecoder) (buf : GstBuffer)
    (hd : opusvis.decoder = some st) (hFs : frame_Fs lib buf ≠ 0)
    (hret : decode_ret lib st buf < 0) :
    (∃ o es, handle_opus_frame lib opusvis buf = some (o, es) ∧
      o.decoder = some (decoder_after lib st buf) ∧
      ((∃ e ∈ es, e.isPitch = true) ↔
        (decoder_after lib st buf).DecControl.prevPitchLag ≠ 0)) ∧
    ∀ lib2 : Lib, frame_Fs lib2 buf = frame_Fs lib buf →
      decoder_after lib2 st buf = decoder_after lib st buf →
      handle_opus_frame lib2 opusvis buf = handle_opus_frame lib opusvis buf := by
  -- the return code is never read by the code, so `hret` plays no part below
  have _ := hret
  constructor
  · refine ⟨_, _, handle_opus_frame_decode lib opusvis st buf hFs hd, rfl, ?_⟩
    constructor
    · rintro ⟨e, he, hp⟩
      rcases List.mem_cons.1 he with rfl | he
      · simp [Effect.isPitch] at hp
      · exact ((pitch_print_mem _ _).1 he).1
    · intro hl
      exact ⟨_, List.mem_cons_of_mem _ ((pitch_print_mem _ _).2 ⟨hl, rfl⟩), rfl⟩
  · intro lib2 h1 h2
    rw [handle_opus_frame_decode lib opusvis st buf hFs hd,
      handle_opus_frame_decode lib2 opusvis st buf (h1 ▸ hFs) hd, h2]

/-- Witness of C4 (amended): the failing decode of the counterexample. -/
theorem C4_decode_failure_ignored_witness :
    (opusvis_with_lag 100).decoder = some (decoder_with_lag 100) ∧
    frame_Fs (failing_lib (-4)) (buffer_of 0 1) ≠ 0 ∧
    decode_ret (failing_lib (-4)) (decoder_with_lag 100) (buffer_of 0 1) < 0 ∧
    ((∃ o es, handle_opus_frame (failing_lib (-4)) (opusvis_with_lag 100) (buffer_of 0 1)
          = some (o, es) ∧
        o.decoder = some (decoder_after (failing_lib (-4)) (decoder_with_lag 100)
          (buffer_of 0 1)) ∧
        ((∃ e ∈ es, e.isPitch = true) ↔
          (decoder_after (failing_lib (-4)) (decoder_with_lag 100)
            (buffer_of 0 1)).DecControl.prevPitchLag ≠ 0)) ∧
      ∀ lib2 : Lib, frame_Fs lib2 (buffer_of 0 1) = frame_Fs (failing_lib (-4)) (buffer_of 0 1) →
        decoder_after lib2 (decoder_with_lag 100) (buffer_of 0 1)
          = decoder_after (failing_lib (-4)) (decoder_with_lag 100) (buffer_of 0 1) →
        handle_opus_frame lib2 (opusvis_with_lag 100) (buffer_of 0 1)
          = handle_opus_frame (failing_lib (-4)) (opusvis_with_lag 100) (buffer_of 0 1)) :=
  ⟨rfl, by decide, by decide,
    C4_decode_failure_ignored _ _ _ _ rfl (by decide) (by decide)⟩

/-- C5, the code evaluated at an element without a decoder: after a failed
`opus_decoder_create` gst_opusvis_init leaves `decoder` NULL with the chain
function installed; for an incoming wideband packet (first byte 0x48, rate
16000) handle_opus_frame dereferences the NULL decoder, so gst_opusvis_chain
never reaches `gst_pad_push` and the buffer is not pushed. -/
theorem C5_chain_without_decoder_pushes_nothing :
    (gst_opusvis_init (failing_lib (-1)) blank_opusvis).1.decoder = none ∧
    (gst_opusvis_init (failing_lib (-1)) blank_opusvis).1.sinkpad.map GstPad.chainfunc
      = some (some PadFunction.gst_opusvis_chain) ∧
    frame_Fs (failing_lib (-1)) (buffer_of 0x48 3) = 16000 ∧
    handle_opus_frame (failing_lib (-1))
      (gst_opusvis_init (failing_lib (-1)) blank_opusvis).1 (buffer_of 0x48 3) = none ∧
    gst_opusvis_chain (failing_lib (-1))
      (gst_opusvis_init (failing_lib (-1)) blank_opusvis).1 (buffer_of 0x48 3) = none := by
  have h := handle_opus_frame_null (failing_lib (-1))
    (gst_opusvis_init (failing_lib (-1)) blank_opusvis).1 (buffer_of 0x48 3) (by decide) rfl
  refine ⟨rfl, rfl, by decide, h, ?_⟩
  simp [gst_opusvis_chain, h]

/-- C6: whatever the classifier answers for the first byte of a packet, the
sample rate handle_opus_frame derives is one of 8000, 12000, 16000, 24000,
48000 or 0; a classifier result outside the five bandwidth constants falls
through the switch to 0; two runs on the same bytes derive the same value,
whatever the element and its decoder hold; and with the classifier of libopus
the value is the same for any two buffers that start with the same byte. -/
theorem C6_sample_rate_range_and_determinism (lib : Lib) (buf buf2 : GstBuffer)
    (bw : Int) :
    frame_Fs lib buf ∈ ([8000, 12000, 16000, 24000, 48000, 0] : List Int) ∧
    ((bw ≠ OPUS_BANDWIDTH_NARROWBAND ∧ bw ≠ OPUS_BANDWIDTH_MEDIUMBAND ∧
        bw ≠ OPUS_BANDWIDTH_WIDEBAND ∧ bw ≠ OPUS_BANDWIDTH_SUPERWIDEBAND ∧
        bw ≠ OPUS_BANDWIDTH_FULLBAND) → Fs_switch bw = 0) ∧
    (buf.mem = buf2.mem → frame_Fs lib buf = frame_Fs lib buf2) ∧
    (buf.mem 0 % 256 = buf2.mem 0 % 256 →
      frame_Fs (with_libopus lib) buf = frame_Fs (with_libopus lib) buf2) := by
  refine ⟨?_, (Fs_switch_eq_zero_iff bw).2, ?_, ?_⟩
  · rcases Fs_switch_cases (lib.opus_packet_get_bandwidth (gst_buffer_map buf).data)
      with h | h | h | h | h | h <;> simp [frame_Fs, h]
  · intro h
    simp [frame_Fs, gst_buffer_map, h]
  · intro h
    rw [frame_Fs_libopus, frame_Fs_libopus]
    unfold toc_config
    rw [h]

/-- Witness of C6: two buffers of different sizes whose bytes are all 0x68, and
the classifier result 1106, which is none of the five bandwidths. -/
theorem C6_sample_rate_range_and_determinism_witness :
    ((1106 : Int) ≠ OPUS_BANDWIDTH_NARROWBAND ∧ (1106 : Int) ≠ OPUS_BANDWIDTH_MEDIUMBAND ∧
      (1106 : Int) ≠ OPUS_BANDWIDTH_WIDEBAND ∧ (1106 : Int) ≠ OPUS_BANDWIDTH_SUPERWIDEBAND ∧
      (1106 : Int) ≠ OPUS_BANDWIDTH_FULLBAND) ∧
    (buffer_of 0x68 3).mem = (buffer_of 0x68 40).mem ∧
    (buffer_of 0x68 3).mem 0 % 256 = (buffer_of 0x68 40).mem 0 % 256 ∧
    Fs_switch 1106 = 0 ∧
    frame_Fs (stub_lib OPUS_BANDWIDTH_WIDEBAND 0 0) (buffer_of 0x68 3)
      = frame_Fs (stub_lib OPUS_BANDWIDTH_WIDEBAND 0 0) (buffer_of 0x68 40) ∧
    frame_Fs (with_libopus (stub_lib OPUS_BANDWIDTH_WIDEBAND 0 0)) (buffer_of 0x68 3)
      = frame_Fs (with_libopus (stub_lib OPUS_BANDWIDTH_WIDEBAND 0 0)) (buffer_of 0x68 40) :=
  ⟨by decide, rfl, rfl,
    (C6_sample_rate_range_and_determinism (stub_lib OPUS_BANDWIDTH_WIDEBAND 0 0)
      (buffer_of 0x68 3) (buffer_of 0x68 40) 1106).2.1 (by decide),
    (C6_sample_rate_range_and_determinism (stub_lib OPUS_BANDWIDTH_WIDEBAND 0 0)
      (buffer_of 0x68 3) (buffer_of 0x68 40) 1106).2.2.1 rfl,
    (C6_sample_rate_range_and_determinism (stub_lib OPUS_BANDWIDTH_WIDEBAND 0 0)
      (buffer_of 0x68 3) (buffer_of 0x68 40) 1106).2.2.2 rfl⟩

/-- C7, the code evaluated at an empty packet: for a buffer of size 0 the
classifier of libopus is still handed `info.data` and decides on the byte at
offset 0, which is not part of the packet (byte 0x00 gives 8000, byte 0xFF
gives 48000); the result is never 0, so the packet is not skipped and
`opus_decode` is called with length 0. -/
theorem C7_empty_packet_is_classified_and_decoded :
    (buffer_of 0x00 0).size = 0 ∧ (buffer_of 0xFF 0).size = 0 ∧
    frame_Fs (with_libopus (stub_lib 0 960 0)) (buffer_of 0x00 0) = 8000 ∧
    frame_Fs (with_libopus (stub_lib 0 960 0)) (buffer_of 0xFF 0) = 48000 ∧
    handle_opus_frame (with_libopus (stub_lib 0 960 0)) (opusvis_with_lag 0) (buffer_of 0x00 0)
      = some (opusvis_with_lag 0, [Effect.decode 0 960 960 0]) := by
  refine ⟨rfl, rfl, by decide, by decide, ?_⟩
  rw [handle_opus_frame_decode (with_libopus (stub_lib 0 960 0)) (opusvis_with_lag 0)
    (decoder_with_lag 0) (buffer_of 0x00 0) (by decide) rfl]
  rfl

/-- C8, refuted as stated: the byte 0x20 has configuration index 4, within
0..11, and is classified mediumband (rate 12000), not narrowband; the byte
0x60 has configuration index 12, within 12..15, and is classified
super-wideband (rate 24000), not wideband. -/
theorem C8_counterexample :
    toc_config ((buffer_of 0x20 1).mem 0) = 4 ∧
    frame_Fs (with_libopus (stub_lib 0 0 0)) (buffer_of 0x20 1) = 12000 ∧
    toc_config ((buffer_of 0x60 1).mem 0) = 12 ∧
    frame_Fs (with_libopus (stub_lib 0 0 0)) (buffer_of 0x60 1) = 24000 := by
  decide

/-- C8, amended: with the classifier of libopus, a packet whose TOC
configuration index (top 5 bits of the first byte) is in 0..3 is narrowband
(rate 8000), in 4..7 mediumband (12000), in 8..11 wideband (16000), in 12..13
super-wideband (24000) and in 14..15 fullband (48000), whatever the other bits
of the first byte, the payload bytes and the size are. -/
theorem C8_classification_by_config_index (lib : Lib) (buf : GstBuffer) :
    (toc_config (buf.mem 0) ≤ 3 → frame_Fs (with_libopus lib) buf = 8000) ∧
    (4 ≤ toc_config (buf.mem 0) ∧ toc_config (buf.mem 0) ≤ 7 →
      frame_Fs (with_libopus lib) buf = 12000) ∧
    (8 ≤ toc_config (buf.mem 0) ∧ toc_config (buf.mem 0) ≤ 11 →
      frame_Fs (with_libopus lib) buf = 16000) ∧
    (12 ≤ toc_config (buf.mem 0) ∧ toc_config (buf.mem 0) ≤ 13 →
      frame_Fs (with_libopus lib) buf = 24000) ∧
    (14 ≤ toc_config (buf.mem 0) ∧ toc_config (buf.mem 0) ≤ 15 →
      frame_Fs (with_libopus lib) buf = 48000) := by
  rw [frame_Fs_libopus]
  generalize toc_config (buf.mem 0) = c
  refine ⟨?_, ?_, ?_, ?_, ?_⟩
  · intro h
    interval_cases c <;> decide
  · rintro ⟨h1, h2⟩
    interval_cases c <;> decide
  · rintro ⟨h1, h2⟩
    interval_cases c <;> decide
  · rintro ⟨h1, h2⟩
    interval_cases c <;> decide
  · rintro ⟨h1, h2⟩
    interval_cases c <;> decide

/-- Witness of C8 (amended): the bytes 0x07, 0x20, 0x5F, 0x60 and 0x7C, of
configuration index 0, 4, 11, 12 and 15. -/
theorem C8_classification_by_config_index_witness :
    toc_config ((buffer_of 0x07 1).mem 0) ≤ 3 ∧
    frame_Fs (with_libopus (stub_lib 0 0 0)) (buffer_of 0x07 1) = 8000 ∧
    (4 ≤ toc_config ((buffer_of 0x20 9).mem 0) ∧ toc_config ((buffer_of 0x20 9).mem 0) ≤ 7) ∧
    frame_Fs (with_libopus (stub_lib 0 0 0)) (buffer_of 0x20 9) = 12000 ∧
    (8 ≤ toc_config ((buffer_of 0x5F 2).mem 0) ∧ toc_config ((buffer_of 0x5F 2).mem 0) ≤ 11) ∧
    frame_Fs (with_libopus (stub_lib 0 0 0)) (buffer_of 0x5F 2) = 16000 ∧
    (12 ≤ toc_config ((buffer_of 0x60 1).mem 0) ∧ toc_config ((buffer_of 0x60 1).mem 0) ≤ 13) ∧
    frame_Fs (with_libopus (stub_lib 0 0 0)) (buffer_of 0x60 1) = 24000 ∧
    (14 ≤ toc_config ((buffer_of 0x7C 1).mem 0) ∧ toc_config ((buffer_of 0x7C 1).mem 0) ≤ 15) ∧
    frame_Fs (with_libopus (stub_lib 0 0 0)) (buffer_of 0x7C 1) = 48000 :=
  ⟨by decide,
    (C8_classification_by_config_index (stub_lib 0 0 0) (buffer_of 0x07 1)).1 (by decide),
    by decide,
    (C8_classification_by_config_index (stub_lib 0 0 0) (buffer_of 0x20 9)).2.1 (by decide),
    by decide,
    (C8_classification_by_config_index (stub_lib 0 0 0) (buffer_of 0x5F 2)).2.2.1 (by decide),
    by decide,
    (C8_classification_by_config_index (stub_lib 0 0 0) (buffer_of 0x60 1)).2.2.2.1 (by decide),
    by decide,
    (C8_classification_by_config_index (stub_lib 0 0 0) (buffer_of 0x7C 1)).2.2.2.2 (by decide)⟩

/-- C9, the code evaluated at a failing decoder creation: when
`opus_decoder_create` returns NULL with OPUS_ALLOC_FAIL, gst_opusvis_init
prints the error and still yields an element without a decoder whose sink pad
has gst_opusvis_chain installed; the first packet with a valid classification
then dereferences the NULL decoder. -/
theorem C9_init_failure_still_installs_chain :
    (failing_lib (-4)).opus_decoder_create 48000 1 = (none, OPUS_ALLOC_FAIL) ∧
    OPUS_ALLOC_FAIL ≠ OPUS_OK ∧
    (gst_opusvis_init (failing_lib (-4)) blank_opusvis).2
      = [Effect.create 48000 1, Effect.print_create_error OPUS_ALLOC_FAIL] ∧
    (gst_opusvis_init (failing_lib (-4)) blank_opusvis).1.decoder = none ∧
    (gst_opusvis_init (failing_lib (-4)) blank_opusvis).1.sinkpad.map GstPad.chainfunc
      = some (some PadFunction.gst_opusvis_chain) ∧
    gst_opusvis_chain (failing_lib (-4))
      (gst_opusvis_init (failing_lib (-4)) blank_opusvis).1 (buffer_of 0 1) = none := by
  refine ⟨rfl, by decide, rfl, rfl, rfl, ?_⟩
  have h := handle_opus_frame_null (failing_lib (-4))
    (gst_opusvis_init (failing_lib (-4)) blank_opusvis).1 (buffer_of 0 1) (by decide) rfl
  simp [gst_opusvis_chain, h]

/-- C10: the decode buffer of handle_opus_frame holds exactly 960 samples,
which is the number of samples of 20 ms at the rate and for the channel count
gst_opusvis_init creates the decoder with (48000 Hz, 1 channel), and every
decode call handle_opus_frame makes passes that capacity as its maximum frame
size. -/
theorem C10_decode_buffer_capacity (lib : Lib) (opusvis o : GstOpusvis) (buf : GstBuffer)
    (es : List Effect) (h : handle_opus_frame lib opusvis buf = some (o, es)) :
    decode_buffer_len = 960 ∧
    (∃ rate channels : Int,
      (gst_opusvis_init lib blank_opusvis).2.head? = some (Effect.create rate channels) ∧
      rate = 48000 ∧ channels = 1 ∧
      (decode_buffer_len : Int) = rate * 20 / 1000 * channels) ∧
    ∀ len capacity frame_size decode_fec,
      Effect.decode len capacity frame_size decode_fec ∈ es →
        capacity = decode_buffer_len ∧ frame_size = (capacity : Int) := by
  refine ⟨rfl, ⟨48000, 1, rfl, rfl, rfl, by decide⟩, ?_⟩
  intro len capacity frame_size decode_fec hm
  by_cases hFs : frame_Fs lib buf = 0
  · rw [handle_opus_frame_skip lib opusvis buf hFs] at h
    simp only [Option.some.injEq, Prod.mk.injEq] at h
    obtain ⟨-, rfl⟩ := h
    simp at hm
  · cases hdec : opusvis.decoder with
    | none =>
      rw [handle_opus_frame_null lib opusvis buf hFs hdec] at h
      cases h
    | some st =>
      rw [handle_opus_frame_decode lib opusvis st buf hFs hdec] at h
      simp only [Option.some.injEq, Prod.mk.injEq] at h
      obtain ⟨-, rfl⟩ := h
      rcases List.mem_cons.1 hm with he | he
      · simp only [Effect.decode.injEq] at he
        obtain ⟨-, rfl, rfl, -⟩ := he
        exact ⟨rfl, rfl⟩
      · have := ((pitch_print_mem _ _).1 he).2
        cases this

/-- Witness of C10: a narrowband packet that is decoded. -/
theorem C10_decode_buffer_capacity_witness :
    handle_opus_frame (stub_lib OPUS_BANDWIDTH_NARROWBAND 960 0) (opusvis_with_lag 0)
        (buffer_of 0 1)
      = some (opusvis_with_lag 0, [Effect.decode 1 960 960 0]) ∧
    (decode_buffer_len = 960 ∧
      (∃ rate channels : Int,
        (gst_opusvis_init (stub_lib OPUS_BANDWIDTH_NARROWBAND 960 0) blank_opusvis).2.head?
          = some (Effect.create rate channels) ∧
        rate = 48000 ∧ channels = 1 ∧
        (decode_buffer_len : Int) = rate * 20 / 1000 * channels) ∧
      ∀ len capacity frame_size decode_fec,
        Effect.decode len capacity frame_size decode_fec ∈ [Effect.decode 1 960 960 0] →
          capacity = decode_buffer_len ∧ frame_size = (capacity : Int)) :=
  ⟨by
      rw [handle_opus_frame_decode (stub_lib OPUS_BANDWIDTH_NARROWBAND 960 0)
        (opusvis_with_lag 0) (decoder_with_lag 0) (buffer_of 0 1) (by decide) rfl]
      rfl,
    C10_decode_buffer_capacity (stub_lib OPUS_BANDWIDTH_NARROWBAND 960 0) (opusvis_with_lag 0)
      (opusvis_with_lag 0) (buffer_of 0 1) [Effect.decode 1 960 960 0] (by
        rw [handle_opus_frame_decode (stub_lib OPUS_BANDWIDTH_NARROWBAND 960 0)
          (opusvis_with_lag 0) (decoder_with_lag 0) (buffer_of 0 1) (by decide) rfl]
        rfl)⟩

end OpusVis
